import Mathlib

/-!
Verification model of the CachedLoader caching write-reduction layer
(src/atc/cache/CachedLoader.py).

A row is modelled as a tuple of optional integer column values: `keys`
holds the key-column values, `pay` the remaining payload columns and
`cacheId` the pass-through cache-id columns, all in the fixed column
order of the incoming dataframe.  `none` models SQL NULL.  `hashFn`
stands for the engine's hash function applied to a list of column
values in column order (the code calls the external engine hash;
everything the claims depend on is which columns are passed to it).
Timestamps are integers (seconds).
-/

namespace CachedLoader

/-- A column value; `none` models SQL NULL. -/
abbrev Val := Option Int

/-- An incoming row of the batch dataframe. -/
structure Row where
  keys : List Val
  pay : List Val
  cacheId : List Val
deriving DecidableEq

/-- All columns of a row in column order: this is what `f.hash("*")` and
`f.hash(*columns_to_hash)` with `columns_to_hash = in_cols` receive. -/
def Row.allCols (r : Row) : List Val := r.keys ++ r.pay ++ r.cacheId

/-- The non-key columns of a row (the column set the spec says the content
hash covers). -/
def Row.nonKeyCols (r : Row) : List Val := r.pay ++ r.cacheId

/-- A row of the cache table: key values, content hash, loaded time,
deleted time, and pass-through cache-id columns. -/
structure CacheRow where
  keys : List Val
  rowHash : Option Int
  loadedTime : Option Int
  deletedTime : Option Int
  cacheId : List Val
deriving DecidableEq

/-- The ttl/budget configuration of `CachedLoaderParameters`. -/
structure Params where
  max_ttl : Int
  refresh_ttl : Int
  refresh_row_limit : Int

/-- `_extract_cache`: the active cache snapshot, i.e. the cache table
restricted to rows with `deletedTime IS NULL AND rowHash IS NOT NULL AND
loadedTime IS NOT NULL` (read at a pinned version; versioning itself is
not modelled, the snapshot content is). -/
def extract_cache (tbl : List CacheRow) : List CacheRow :=
  tbl.filter (fun c => c.deletedTime.isNone && c.rowHash.isSome && c.loadedTime.isSome)

/-- Helper for `dedupByKeys`: `seen` is the list of key tuples already
emitted. -/
def dedupByKeysAux (seen : List (List Val)) : List Row → List Row
  | [] => []
  | r :: rs =>
    if seen.any (fun k => decide (k = r.keys)) then dedupByKeysAux seen rs
    else r :: dedupByKeysAux (r.keys :: seen) rs

/-- `df.dropDuplicates(key_cols)`: keep one representative row per key
(the first occurrence). -/
def dedupByKeys (l : List Row) : List Row := dedupByKeysAux [] l

/-- The row filter `({col} is NOT NULL)` over all key columns. -/
def nullFreeKeys (r : Row) : Bool := r.keys.all Option.isSome

/-- The hash computed in `_discard_non_new_rows_against_cache`:
`df_in.withColumn("rowHash", f.hash("*"))`, i.e. the engine hash over
ALL columns of the incoming dataframe. -/
def reduceRowHash (hashFn : List Val → Int) (r : Row) : Int :=
  hashFn r.allCols

/-- The priority ladder of `_discard_non_new_rows_against_cache` for one
joined incoming row (`__cachePriority`): 1 for new keys (null cache
`loadedTime`) and hash mismatches, 2 for `max_ttl` expiry, 3 for
`refresh_ttl` expiry, 1000 otherwise.  A null cache `rowHash` makes the
mismatch test NULL, so that branch is skipped, as in the SQL. -/
def priority (P : Params) (hashFn : List Val → Int) (now : Int) (r : Row) :
    Option CacheRow → Nat
  | none => 1
  | some c =>
    match c.loadedTime with
    | none => 1
    | some lt =>
      if (match c.rowHash with
          | some h => decide (¬ h = reduceRowHash hashFn r)
          | none => false) then 1
      else if P.max_ttl > 0 ∧ now - lt > P.max_ttl then 2
      else if P.refresh_ttl > 0 ∧ now - lt > P.refresh_ttl then 3
      else 1000

/-- The cache rows matching an incoming row's key (the equi-join
condition on `key_cols`). -/
def cacheMatches (cache : List CacheRow) (r : Row) : List CacheRow :=
  cache.filter (fun c => decide (c.keys = r.keys))

/-- The incoming side of the full outer join: each incoming row paired
with each cache row of equal key, or with `none` when the cache has no
counterpart. -/
def incomingPairs (dfp : List Row) (cache : List CacheRow) :
    List (Row × Option CacheRow) :=
  dfp.flatMap (fun r =>
    let ms := cacheMatches cache r
    if ms.isEmpty then [(r, none)] else ms.map (fun c => (r, some c)))

/-- An incoming row annotated with its `__cachePriority` and the cache
`loadedTime` column used by the budget window's ordering. -/
structure PRow where
  row : Row
  prio : Nat
  lt : Option Int
deriving DecidableEq

/-- Classification of the joined incoming rows. -/
def classified (P : Params) (hashFn : List Val → Int) (now : Int)
    (dfp : List Row) (cache : List CacheRow) : List PRow :=
  (incomingPairs dfp cache).map
    (fun rc => ⟨rc.1, priority P hashFn now rc.1 rc.2, rc.2.bind CacheRow.loadedTime⟩)

/-- Ordering on the `loadedTime` column used by
`Window.orderBy("__cachePriority", "loadedTime")`; SQL sorts NULLs first
ascending. -/
def ltLe : Option Int → Option Int → Bool
  | none, _ => true
  | some _, none => false
  | some a, some b => decide (a ≤ b)

/-- The window's lexicographic order on (`__cachePriority`, `loadedTime`). -/
def prLe (a b : PRow) : Bool :=
  decide (a.prio < b.prio) || (decide (a.prio = b.prio) && ltLe a.lt b.lt)

/-- Insertion step of the deterministic model of the window sort. -/
def insertRow (p : PRow) : List PRow → List PRow
  | [] => [p]
  | q :: qs => if prLe p q then p :: q :: qs else q :: insertRow p qs

/-- Deterministic model of the ordering performed by
`Window.orderBy("__cachePriority", "loadedTime")` (the engine's sort is
only specified up to tie order). -/
def sortRows : List PRow → List PRow
  | [] => []
  | p :: ps => insertRow p (sortRows ps)

/-- The budget filter over the sorted rows: `i` is `row_number()` of the
head; a row survives when `__cachePriority < 3` or its row number is at
most `refresh_row_limit`. -/
def budgetGo (limit : Int) : Int → List PRow → List PRow
  | _, [] => []
  | i, p :: ps =>
    if p.prio < 3 ∨ i ≤ limit then p :: budgetGo limit (i + 1) ps
    else budgetGo limit (i + 1) ps

/-- The budget stage: applied only when `refresh_row_limit > 0`. -/
def budgetAdmitted (P : Params) (l : List PRow) : List PRow :=
  if P.refresh_row_limit > 0 then budgetGo P.refresh_row_limit 1 (sortRows l) else l

/-- The two disjoint outputs of the reduction. -/
structure ReductionResult where
  to_be_written : List Row
  to_be_deleted : List CacheRow
deriving DecidableEq

/-- The priority-classified incoming rows that survive the
`__cachePriority < 100` filter. -/
def filteredClassified (P : Params) (hashFn : List Val → Int) (now : Int)
    (dfp : List Row) (cache : List CacheRow) : List PRow :=
  (classified P hashFn now dfp cache).filter (fun p => decide (p.prio < 100))

/-- `_discard_non_new_rows_against_cache`: drop rows with null keys, hash,
full-outer-join against the cache, classify, filter priorities below 100,
apply the row budget; cache rows without an incoming counterpart form
`to_be_deleted`. -/
def discard_non_new_rows_against_cache (P : Params) (hashFn : List Val → Int)
    (now : Int) (dfIn : List Row) (cache : List CacheRow) : ReductionResult :=
  let dfp := dfIn.filter nullFreeKeys
  { to_be_written :=
      (budgetAdmitted P (filteredClassified P hashFn now dfp cache)).map PRow.row
    to_be_deleted :=
      cache.filter (fun c => !(dfp.any (fun r => decide (r.keys = c.keys)))) }

/-- `_prepare_written_cache_update` for one written row: re-hash the full
original column set (`columns_to_hash = in_cols`), stamp `now` as
`loadedTime`, null `deletedTime`, carry the cache-id columns. -/
def prepare_written_cache_row (hashFn : List Val → Int) (now : Int) (r : Row) :
    CacheRow :=
  { keys := r.keys
    rowHash := some (hashFn r.allCols)
    loadedTime := some now
    deletedTime := none
    cacheId := r.cacheId }

/-- `_prepare_deleted_cache_update` for one deleted cache row: keep hash
and `loadedTime`, stamp `now` as `deletedTime`. -/
def prepare_deleted_cache_row (now : Int) (c : CacheRow) : CacheRow :=
  { keys := c.keys
    rowHash := c.rowHash
    loadedTime := c.loadedTime
    deletedTime := some now
    cacheId := c.cacheId }

/-- `_load_cache`: the MERGE INTO statement — update every target row whose
key matches a source row, insert source rows with no key match. -/
def mergeUpsert (tbl updates : List CacheRow) : List CacheRow :=
  tbl.map (fun c =>
      match updates.find? (fun u => decide (u.keys = c.keys)) with
      | some u => u
      | none => c)
    ++ updates.filter (fun u => !(tbl.any (fun c => decide (c.keys = u.keys))))

/-- The observable outcome of one `save` call: the final cache table
content, whether the call raised, what was passed to the two pluggable
operations, whether the delete operation was invoked at all, whether each
of the two cache-update merges ran, and the row count of the last write. -/
structure SaveResult where
  cache : List CacheRow
  raised : Bool
  writtenArg : List Row
  deletedArg : List CacheRow
  deleteCalled : Bool
  writeCacheUpdated : Bool
  deleteCacheUpdated : Bool
  n_rows_last_write : Nat
deriving DecidableEq

/-- `save`: dedupe the batch by key, extract the active cache snapshot,
reduce, run the pluggable write operation (its result is checked with
Python truthiness: a returned dataframe object is truthy even when it has
zero rows, only `None` is falsy), merge the written-rows cache update,
then independently run the delete operation and merge its cache update.
A raising operation is modelled by `Except.error`; the state reached at
that point is returned together with `raised = true`.  (The check that
the batch covers all key columns is structural in this model: a `Row`
always carries all key values.) -/
def save (writeOp : List Row → Except Unit (Option (List Row)))
    (deleteOp : List CacheRow → Except Unit (Option (List CacheRow)))
    (P : Params) (hashFn : List Val → Int) (now : Int)
    (cacheTable : List CacheRow) (dfIn : List Row) : SaveResult :=
  let df := dedupByKeys dfIn
  let cache := extract_cache cacheTable
  let result := discard_non_new_rows_against_cache P hashFn now df cache
  match writeOp result.to_be_written with
  | Except.error _ =>
    { cache := cacheTable, raised := true, writtenArg := result.to_be_written
      deletedArg := result.to_be_deleted, deleteCalled := false
      writeCacheUpdated := false, deleteCacheUpdated := false
      n_rows_last_write := 0 }
  | Except.ok wOpt =>
    let afterWrite : List CacheRow × Bool × Nat :=
      match wOpt with
      | none => (cacheTable, false, 0)
      | some w =>
        (mergeUpsert cacheTable (w.map (prepare_written_cache_row hashFn now)),
          true, w.length)
    match deleteOp result.to_be_deleted with
    | Except.error _ =>
      { cache := afterWrite.1, raised := true, writtenArg := result.to_be_written
        deletedArg := result.to_be_deleted, deleteCalled := true
        writeCacheUpdated := afterWrite.2.1, deleteCacheUpdated := false
        n_rows_last_write := afterWrite.2.2 }
    | Except.ok dOpt =>
      match dOpt with
      | none =>
        { cache := afterWrite.1, raised := false, writtenArg := result.to_be_written
          deletedArg := result.to_be_deleted, deleteCalled := true
          writeCacheUpdated := afterWrite.2.1, deleteCacheUpdated := false
          n_rows_last_write := afterWrite.2.2 }
      | some d =>
        { cache := mergeUpsert afterWrite.1 (d.map (prepare_deleted_cache_row now))
          raised := false, writtenArg := result.to_be_written
          deletedArg := result.to_be_deleted, deleteCalled := true
          writeCacheUpdated := afterWrite.2.1, deleteCacheUpdated := true
          n_rows_last_write := afterWrite.2.2 }

/-- The identity write/delete operation (the default `delete_operation`
returns its argument; a typical overridden `write_operation` that writes
everything it is offered behaves the same). -/
def identityOp {α : Type} (l : α) : Except Unit (Option α) := Except.ok (some l)

/-- `validate`: the construction-time check.  `tableCols` are the columns
of the live cache table; the expected set is
`key_cols ++ cache_id_cols ++ [rowHash, loadedTime, deletedTime]`
compared as sets.  `writeOverloaded` / `deleteOverloaded` state whether
the concrete class's own dictionary defines the operation, and `isBase`
whether the instantiated class is the base `CachedLoader` itself. -/
def validate (tableCols keyCols cacheIdCols : List String)
    (hashCol ltCol dtCol : String)
    (writeOverloaded deleteOverloaded isBase : Bool) : Bool :=
  let expected := keyCols ++ cacheIdCols ++ [hashCol, ltCol, dtCol]
  (tableCols.all (fun c => decide (c ∈ expected))
      && expected.all (fun c => decide (c ∈ tableCols)))
    && (writeOverloaded || deleteOverloaded)
    && !isBase

/-- A concrete instantiation of the engine hash function, used to
evaluate the model on explicit inputs. -/
def sumHash (l : List Val) : Int := (l.map (fun o => o.getD 0)).sum

/-! ### Helper lemmas about the reduction pipeline -/

theorem mem_incomingPairs_elim {dfp : List Row} {cache : List CacheRow}
    {rc : Row × Option CacheRow} (h : rc ∈ incomingPairs dfp cache) :
    rc.1 ∈ dfp ∧
      ((rc.2 = none ∧ cacheMatches cache rc.1 = []) ∨
        ∃ c ∈ cache, rc.2 = some c ∧ c.keys = rc.1.keys) := by
  unfold incomingPairs at h
  simp only [List.mem_flatMap] at h
  obtain ⟨r, hr, hmem⟩ := h
  cases hm : cacheMatches cache r with
  | nil =>
    rw [hm] at hmem
    simp only [List.isEmpty_nil, if_true, List.mem_singleton] at hmem
    subst hmem
    exact ⟨hr, Or.inl ⟨rfl, hm⟩⟩
  | cons a t =>
    rw [hm] at hmem
    simp only [List.isEmpty_cons, if_false, Bool.false_eq_true, List.mem_map] at hmem
    obtain ⟨c, hc, rfl⟩ := hmem
    refine ⟨hr, Or.inr ⟨c, ?_, rfl, ?_⟩⟩
    · have : c ∈ cacheMatches cache r := hm ▸ hc
      exact (List.mem_filter.mp this).1
    · have : c ∈ cacheMatches cache r := hm ▸ hc
      have := (List.mem_filter.mp this).2
      simpa using this

theorem incomingPairs_mem_none {dfp : List Row} {cache : List CacheRow}
    {r : Row} (hr : r ∈ dfp) (h : cacheMatches cache r = []) :
    (r, (none : Option CacheRow)) ∈ incomingPairs dfp cache := by
  unfold incomingPairs
  simp only [List.mem_flatMap]
  exact ⟨r, hr, by simp [h]⟩

theorem incomingPairs_mem_some {dfp : List Row} {cache : List CacheRow}
    {r : Row} {c : CacheRow} (hr : r ∈ dfp) (hc : c ∈ cache)
    (hk : c.keys = r.keys) :
    (r, some c) ∈ incomingPairs dfp cache := by
  unfold incomingPairs
  simp only [List.mem_flatMap]
  refine ⟨r, hr, ?_⟩
  have hcm : c ∈ cacheMatches cache r := by
    unfold cacheMatches
    simp only [List.mem_filter, decide_eq_true_eq]
    exact ⟨hc, hk⟩
  cases hm : cacheMatches cache r with
  | nil => rw [hm] at hcm; cases hcm
  | cons a t =>
    simp only [List.isEmpty_cons, Bool.false_eq_true, if_false, List.mem_map]
    exact ⟨c, hm ▸ hcm, rfl⟩

theorem mem_classified_iff {P : Params} {hashFn : List Val → Int} {now : Int}
    {dfp : List Row} {cache : List CacheRow} {p : PRow} :
    p ∈ classified P hashFn now dfp cache ↔
      ∃ rc ∈ incomingPairs dfp cache,
        p = ⟨rc.1, priority P hashFn now rc.1 rc.2, rc.2.bind CacheRow.loadedTime⟩ := by
  unfold classified
  simp only [List.mem_map]
  constructor
  · rintro ⟨rc, hrc, rfl⟩; exact ⟨rc, hrc, rfl⟩
  · rintro ⟨rc, hrc, rfl⟩; exact ⟨rc, hrc, rfl⟩

theorem mem_insertRow {p q : PRow} {l : List PRow} :
    q ∈ insertRow p l ↔ q = p ∨ q ∈ l := by
  induction l with
  | nil => simp [insertRow]
  | cons a t ih =>
    unfold insertRow
    cases h : prLe p a
    · simp only [h, Bool.false_eq_true, if_false, List.mem_cons, ih]
      tauto
    · simp only [h, if_true, List.mem_cons]

theorem mem_sortRows {q : PRow} {l : List PRow} :
    q ∈ sortRows l ↔ q ∈ l := by
  induction l with
  | nil => simp [sortRows]
  | cons a t ih =>
    unfold sortRows
    rw [mem_insertRow, ih]
    simp

theorem mem_budgetGo_sub {limit i : Int} {l : List PRow} {p : PRow}
    (h : p ∈ budgetGo limit i l) : p ∈ l := by
  induction l generalizing i with
  | nil => simp only [budgetGo] at h; cases h
  | cons a t ih =>
    unfold budgetGo at h
    split at h
    · rcases List.mem_cons.mp h with rfl | h'
      · exact List.mem_cons_self _ _
      · exact List.mem_cons_of_mem _ (ih h')
    · exact List.mem_cons_of_mem _ (ih h)

theorem mem_budgetGo_low {limit i : Int} {l : List PRow} {p : PRow}
    (hp : p ∈ l) (hprio : p.prio < 3) : p ∈ budgetGo limit i l := by
  induction l generalizing i with
  | nil => cases hp
  | cons a t ih =>
    unfold budgetGo
    rcases List.mem_cons.mp hp with rfl | hp'
    · rw [if_pos (Or.inl hprio)]
      exact List.mem_cons_self _ _
    · by_cases hc : a.prio < 3 ∨ i ≤ limit
      · rw [if_pos hc]; exact List.mem_cons_of_mem _ (ih hp')
      · rw [if_neg hc]; exact ih hp'

theorem mem_budgetAdmitted_sub {P : Params} {l : List PRow} {p : PRow}
    (h : p ∈ budgetAdmitted P l) : p ∈ l := by
  unfold budgetAdmitted at h
  by_cases hc : P.refresh_row_limit > 0
  · rw [if_pos hc] at h
    exact mem_sortRows.mp (mem_budgetGo_sub h)
  · rwa [if_neg hc] at h

theorem mem_budgetAdmitted_low {P : Params} {l : List PRow} {p : PRow}
    (hp : p ∈ l) (hprio : p.prio < 3) : p ∈ budgetAdmitted P l := by
  unfold budgetAdmitted
  by_cases hc : P.refresh_row_limit > 0
  · rw [if_pos hc]
    exact mem_budgetGo_low (mem_sortRows.mpr hp) hprio
  · rwa [if_neg hc]

theorem mem_toBeWritten_iff {P : Params} {hashFn : List Val → Int} {now : Int}
    {dfIn : List Row} {cache : List CacheRow} {r : Row} :
    r ∈ (discard_non_new_rows_against_cache P hashFn now dfIn cache).to_be_written ↔
      ∃ p ∈ budgetAdmitted P
          (filteredClassified P hashFn now (dfIn.filter nullFreeKeys) cache),
        p.row = r := by
  unfold discard_non_new_rows_against_cache
  simp only [List.mem_map]

theorem row_mem_dfp_of_mem_toBeWritten {P : Params} {hashFn : List Val → Int}
    {now : Int} {dfIn : List Row} {cache : List CacheRow} {r : Row}
    (h : r ∈ (discard_non_new_rows_against_cache P hashFn now dfIn cache).to_be_written) :
    r ∈ dfIn.filter nullFreeKeys := by
  obtain ⟨p, hp, rfl⟩ := mem_toBeWritten_iff.mp h
  have hfc := mem_budgetAdmitted_sub hp
  unfold filteredClassified at hfc
  have hcl := (List.mem_filter.mp hfc).1
  obtain ⟨rc, hrc, rfl⟩ := mem_classified_iff.mp hcl
  exact (mem_incomingPairs_elim hrc).1

theorem mem_toBeDeleted_iff {P : Params} {hashFn : List Val → Int} {now : Int}
    {dfIn : List Row} {cache : List CacheRow} {c : CacheRow} :
    c ∈ (discard_non_new_rows_against_cache P hashFn now dfIn cache).to_be_deleted ↔
      c ∈ cache ∧ ∀ r ∈ dfIn.filter nullFreeKeys, ¬ r.keys = c.keys := by
  unfold discard_non_new_rows_against_cache
  simp only [List.mem_filter, Bool.not_eq_true', List.any_eq_false,
    decide_eq_false_iff_not, decide_eq_true_eq]


theorem mem_extract_cache {tbl : List CacheRow} {c : CacheRow} :
    c ∈ extract_cache tbl ↔
      c ∈ tbl ∧ c.deletedTime = none ∧ c.rowHash ≠ none ∧ c.loadedTime ≠ none := by
  unfold extract_cache
  simp [List.mem_filter, Option.isNone_iff_eq_none, Option.isSome_iff_ne_none,
    and_assoc]

theorem priority_none {P : Params} {hashFn : List Val → Int} {now : Int} {r : Row} :
    priority P hashFn now r none = 1 := rfl

theorem priority_mismatch {P : Params} {hashFn : List Val → Int} {now : Int}
    {r : Row} {c : CacheRow} {lt hv : Int} (h1 : c.loadedTime = some lt)
    (h2 : c.rowHash = some hv) (h3 : hv ≠ reduceRowHash hashFn r) :
    priority P hashFn now r (some c) = 1 := by
  rcases c with ⟨ck, ch, clt, cdt, cid⟩
  dsimp only at h1 h2
  subst h1
  subst h2
  simp [priority, h3]

theorem cacheMatches_eq_nil {cache : List CacheRow} {r : Row}
    (h : ∀ c ∈ cache, ¬ c.keys = r.keys) : cacheMatches cache r = [] := by
  unfold cacheMatches
  simp only [List.filter_eq_nil_iff, decide_eq_true_eq]
  exact h

theorem written_of_prio_one {P : Params} {hashFn : List Val → Int} {now : Int}
    {dfIn : List Row} {cache : List CacheRow} {rc : Row × Option CacheRow}
    (hrc : rc ∈ incomingPairs (dfIn.filter nullFreeKeys) cache)
    (h1 : priority P hashFn now rc.1 rc.2 = 1) :
    rc.1 ∈ (discard_non_new_rows_against_cache P hashFn now dfIn cache).to_be_written := by
  rw [mem_toBeWritten_iff]
  refine ⟨⟨rc.1, priority P hashFn now rc.1 rc.2, rc.2.bind CacheRow.loadedTime⟩, ?_, rfl⟩
  apply mem_budgetAdmitted_low
  · unfold filteredClassified
    refine List.mem_filter.mpr ⟨mem_classified_iff.mpr ⟨rc, hrc, rfl⟩, ?_⟩
    simp [h1]
  · simp [h1]

/-- C1 counterexample: with the engine hash instantiated as a concrete sum
hash, two rows that agree on every non-key column receive different
content hashes both in the reduction and in the written-cache update,
because the code hashes all columns of the row, key columns included.
This refutes the claim that the hash is computed over no key column. -/
theorem C1_counterexample :
    (Row.mk [some 1] [some 5] []).nonKeyCols = (Row.mk [some 2] [some 5] []).nonKeyCols ∧
    reduceRowHash sumHash (Row.mk [some 1] [some 5] []) ≠
      reduceRowHash sumHash (Row.mk [some 2] [some 5] []) ∧
    (prepare_written_cache_row sumHash 0 (Row.mk [some 1] [some 5] [])).rowHash ≠
      (prepare_written_cache_row sumHash 0 (Row.mk [some 2] [some 5] [])).rowHash := by
  refine ⟨rfl, by decide, by decide⟩

/-- C1 (amended): the content hash used for change detection in the
reduction and the hash stored into the cache after a successful write are
both computed over ALL columns of the row — key columns included — and
the two sites agree on every row. -/
theorem C1_hash_over_all_columns (hashFn : List Val → Int) (now : Int) (r : Row) :
    reduceRowHash hashFn r = hashFn (r.keys ++ r.pay ++ r.cacheId) ∧
    (prepare_written_cache_row hashFn now r).rowHash = some (reduceRowHash hashFn r) :=
  ⟨rfl, rfl⟩

/-- C3: if the pluggable write operation raises, the `save` call raises,
the cache table is exactly as before the call, the delete operation is
never invoked, and neither cache-update merge runs. -/
theorem C3_write_failure_containment
    (writeOp : List Row → Except Unit (Option (List Row)))
    (deleteOp : List CacheRow → Except Unit (Option (List CacheRow)))
    (P : Params) (hashFn : List Val → Int) (now : Int)
    (tbl : List CacheRow) (dfIn : List Row)
    (h : writeOp (discard_non_new_rows_against_cache P hashFn now
        (dedupByKeys dfIn) (extract_cache tbl)).to_be_written = Except.error ()) :
    (save writeOp deleteOp P hashFn now tbl dfIn).cache = tbl ∧
    (save writeOp deleteOp P hashFn now tbl dfIn).raised = true ∧
    (save writeOp deleteOp P hashFn now tbl dfIn).deleteCalled = false ∧
    (save writeOp deleteOp P hashFn now tbl dfIn).writeCacheUpdated = false ∧
    (save writeOp deleteOp P hashFn now tbl dfIn).deleteCacheUpdated = false := by
  simp [save, h]

/-- A write operation that always raises, standing for a failing business
write. -/
def failWriteOp : List Row → Except Unit (Option (List Row)) := fun _ => Except.error ()

/-- Witness for C3 at a concrete input. -/
theorem C3_witness :
    (save failWriteOp identityOp ⟨0, 0, 0⟩ sumHash 0 [] []).cache = [] ∧
    (save failWriteOp identityOp ⟨0, 0, 0⟩ sumHash 0 [] []).raised = true ∧
    (save failWriteOp identityOp ⟨0, 0, 0⟩ sumHash 0 [] []).deleteCalled = false ∧
    (save failWriteOp identityOp ⟨0, 0, 0⟩ sumHash 0 [] []).writeCacheUpdated = false ∧
    (save failWriteOp identityOp ⟨0, 0, 0⟩ sumHash 0 [] []).deleteCacheUpdated = false :=
  C3_write_failure_containment failWriteOp identityOp ⟨0, 0, 0⟩ sumHash 0 [] [] rfl

/-- C4 counterexample: a concrete subclass that overrides BOTH operations
passes validation (construction succeeds), contradicting the claim that
construction succeeds only when exactly one of the two is overridden. -/
theorem C4_counterexample :
    validate ["k", "h", "l", "d"] ["k"] [] "h" "l" "d" true true false = true ∧
    ¬ (xor true true = true) := by
  refine ⟨by decide, by decide⟩

/-- C4 (amended): construction succeeds exactly when the cache table's
column set equals the expected set, AT LEAST ONE of `write_operation` /
`delete_operation` is overridden in the concrete class, and the
instantiated class is not the base class itself; any violation is
rejected by `validate`, which runs at construction time. -/
theorem C4_validate_iff (tableCols keyCols cacheIdCols : List String)
    (hashCol ltCol dtCol : String) (w d b : Bool) :
    validate tableCols keyCols cacheIdCols hashCol ltCol dtCol w d b = true ↔
      ((∀ c ∈ tableCols, c ∈ keyCols ++ cacheIdCols ++ [hashCol, ltCol, dtCol]) ∧
       (∀ c ∈ keyCols ++ cacheIdCols ++ [hashCol, ltCol, dtCol], c ∈ tableCols)) ∧
      (w = true ∨ d = true) ∧ b = false := by
  unfold validate
  simp only [Bool.and_eq_true, Bool.or_eq_true, Bool.not_eq_true',
    List.all_eq_true, decide_eq_true_eq]
  tauto

/-- C7: a cache row appears in `to_be_deleted` exactly when it is in the
active cache snapshot and no (deduplicated, null-key-filtered) incoming
row shares its key; consequently no key occurs in both `to_be_written`
and `to_be_deleted`. -/
theorem C7_delete_detection_disjoint (P : Params) (hashFn : List Val → Int)
    (now : Int) (dfIn : List Row) (tbl : List CacheRow) :
    (∀ c, c ∈ (discard_non_new_rows_against_cache P hashFn now
          (dedupByKeys dfIn) (extract_cache tbl)).to_be_deleted ↔
        c ∈ extract_cache tbl ∧
          ∀ r ∈ (dedupByKeys dfIn).filter nullFreeKeys, ¬ r.keys = c.keys) ∧
    (∀ r ∈ (discard_non_new_rows_against_cache P hashFn now
          (dedupByKeys dfIn) (extract_cache tbl)).to_be_written,
      ∀ c ∈ (discard_non_new_rows_against_cache P hashFn now
          (dedupByKeys dfIn) (extract_cache tbl)).to_be_deleted,
        ¬ r.keys = c.keys) := by
  constructor
  · intro c
    exact mem_toBeDeleted_iff
  · intro r hr c hc
    exact (mem_toBeDeleted_iff.mp hc).2 r (row_mem_dfp_of_mem_toBeWritten hr)

/-- A write operation that performs no write but returns an empty (not
null) result dataframe. -/
def emptyResultWriteOp : List Row → Except Unit (Option (List Row)) :=
  fun _ => Except.ok (some [])

/-- C8 counterexample: a write operation returning an EMPTY row set (not
`None`) still triggers the written-rows cache update, because the code
tests the returned dataframe with Python truthiness and a dataframe
object is truthy regardless of its row count.  This refutes the claim
that an empty returned row set skips the cache update. -/
theorem C8_counterexample :
    emptyResultWriteOp (discard_non_new_rows_against_cache ⟨0, 0, 0⟩ sumHash 0
        (dedupByKeys []) (extract_cache [])).to_be_written = Except.ok (some []) ∧
    (save emptyResultWriteOp identityOp ⟨0, 0, 0⟩ sumHash 0 [] []).writeCacheUpdated = true :=
  ⟨rfl, rfl⟩

/-- C8 (amended): within a `save` call the written-rows cache update runs
if and only if the write operation returns a non-`None` value — the row
count of the returned set is irrelevant. -/
theorem C8_cache_update_iff_some
    (writeOp : List Row → Except Unit (Option (List Row)))
    (deleteOp : List CacheRow → Except Unit (Option (List CacheRow)))
    (P : Params) (hashFn : List Val → Int) (now : Int)
    (tbl : List CacheRow) (dfIn : List Row) (wOpt : Option (List Row))
    (h : writeOp (discard_non_new_rows_against_cache P hashFn now
        (dedupByKeys dfIn) (extract_cache tbl)).to_be_written = Except.ok wOpt) :
    (save writeOp deleteOp P hashFn now tbl dfIn).writeCacheUpdated = wOpt.isSome := by
  simp only [save, h]
  cases wOpt with
  | none =>
    cases hdel : deleteOp (discard_non_new_rows_against_cache P hashFn now
        (dedupByKeys dfIn) (extract_cache tbl)).to_be_deleted with
    | error e => simp [hdel]
    | ok dOpt => cases dOpt <;> simp [hdel]
  | some w =>
    cases hdel : deleteOp (discard_non_new_rows_against_cache P hashFn now
        (dedupByKeys dfIn) (extract_cache tbl)).to_be_deleted with
    | error e => simp [hdel]
    | ok dOpt => cases dOpt <;> simp [hdel]

/-- Witness for C8 (amended) at a concrete input. -/
theorem C8_witness :
    (save emptyResultWriteOp identityOp ⟨0, 0, 0⟩ sumHash 0 [] []).writeCacheUpdated =
      (some ([] : List Row)).isSome :=
  C8_cache_update_iff_some emptyResultWriteOp identityOp ⟨0, 0, 0⟩ sumHash 0 [] []
    (some []) rfl


/-- C6: an incoming (deduplicated, null-key-free) row whose key is absent
from the active cache snapshot, or for which an active cache row of the
same key stores a different hash, is always included in `to_be_written`
— for every setting of `max_ttl`, `refresh_ttl` and `refresh_row_limit`. -/
theorem C6_new_and_mismatch_always_written (P : Params)
    (hashFn : List Val → Int) (now : Int) (dfIn : List Row)
    (tbl : List CacheRow) (r : Row)
    (hr : r ∈ (dedupByKeys dfIn).filter nullFreeKeys)
    (h : (∀ c ∈ extract_cache tbl, ¬ c.keys = r.keys) ∨
        (∃ c ∈ extract_cache tbl, c.keys = r.keys ∧
          c.rowHash ≠ some (reduceRowHash hashFn r))) :
    r ∈ (discard_non_new_rows_against_cache P hashFn now
        (dedupByKeys dfIn) (extract_cache tbl)).to_be_written := by
  rcases h with habs | ⟨c, hc, hk, hh⟩
  · exact written_of_prio_one
      (incomingPairs_mem_none hr (cacheMatches_eq_nil habs)) priority_none
  · have hmem := mem_extract_cache.mp hc
    obtain ⟨hv, hhv⟩ := Option.ne_none_iff_exists'.mp hmem.2.2.1
    obtain ⟨lt, hlt⟩ := Option.ne_none_iff_exists'.mp hmem.2.2.2
    have hne : hv ≠ reduceRowHash hashFn r := by
      intro heq
      exact hh (by rw [hhv, heq])
    exact written_of_prio_one (incomingPairs_mem_some hr hc hk)
      (priority_mismatch hlt hhv hne)

/-- Witness for C6 at a concrete input: a brand-new key (empty cache). -/
theorem C6_witness :
    Row.mk [some 1] [some 10] [] ∈
      (discard_non_new_rows_against_cache ⟨0, 0, 0⟩ sumHash 100
        (dedupByKeys [Row.mk [some 1] [some 10] []])
        (extract_cache [])).to_be_written :=
  C6_new_and_mismatch_always_written ⟨0, 0, 0⟩ sumHash 100
    [Row.mk [some 1] [some 10] []] [] (Row.mk [some 1] [some 10] [])
    (by decide) (Or.inl (by intro c hc; cases hc))

/-- C10: the cache snapshot used by the reduction excludes every row with
non-null `deletedTime`, null hash or null `loadedTime`; a key whose cache
rows are all marked deleted is treated as new (priority 1, fully
rewritten) when it reappears in a batch, and such a key is never offered
to the delete operation again. -/
theorem C10_deleted_rows_invisible (P : Params) (hashFn : List Val → Int)
    (now : Int) (dfIn : List Row) (tbl : List CacheRow) (r : Row) (k : List Val)
    (hr : r ∈ (dedupByKeys dfIn).filter nullFreeKeys)
    (hdel : ∀ c ∈ tbl, c.keys = r.keys → c.deletedTime ≠ none)
    (hk : ∀ c ∈ tbl, c.keys = k → c.deletedTime ≠ none) :
    (∀ c, c ∈ extract_cache tbl ↔
        c ∈ tbl ∧ c.deletedTime = none ∧ c.rowHash ≠ none ∧ c.loadedTime ≠ none) ∧
    r ∈ (discard_non_new_rows_against_cache P hashFn now
        (dedupByKeys dfIn) (extract_cache tbl)).to_be_written ∧
    (∀ c ∈ (discard_non_new_rows_against_cache P hashFn now
        (dedupByKeys dfIn) (extract_cache tbl)).to_be_deleted, ¬ c.keys = k) := by
  refine ⟨fun c => mem_extract_cache, ?_, ?_⟩
  · refine written_of_prio_one (incomingPairs_mem_none hr (cacheMatches_eq_nil ?_))
      priority_none
    intro c hc hck
    have hmem := mem_extract_cache.mp hc
    exact hdel c hmem.1 hck hmem.2.1
  · intro c hc hck
    have hmem := mem_extract_cache.mp (mem_toBeDeleted_iff.mp hc).1
    exact hk c hmem.1 hck hmem.2.1

/-- Witness for C10 at a concrete input: a cache holding one deleted row
for key 1 while key 1 reappears in the batch. -/
theorem C10_witness :
    (∀ c, c ∈ extract_cache [CacheRow.mk [some 1] (some 99) (some 0) (some 5) []] ↔
        c ∈ [CacheRow.mk [some 1] (some 99) (some 0) (some 5) []] ∧
          c.deletedTime = none ∧ c.rowHash ≠ none ∧ c.loadedTime ≠ none) ∧
    Row.mk [some 1] [some 10] [] ∈
      (discard_non_new_rows_against_cache ⟨0, 0, 0⟩ sumHash 100
        (dedupByKeys [Row.mk [some 1] [some 10] []])
        (extract_cache [CacheRow.mk [some 1] (some 99) (some 0) (some 5) []])).to_be_written ∧
    (∀ c ∈ (discard_non_new_rows_against_cache ⟨0, 0, 0⟩ sumHash 100
        (dedupByKeys [Row.mk [some 1] [some 10] []])
        (extract_cache [CacheRow.mk [some 1] (some 99) (some 0) (some 5) []])).to_be_deleted,
      ¬ c.keys = [some 1]) :=
  C10_deleted_rows_invisible ⟨0, 0, 0⟩ sumHash 100
    [Row.mk [some 1] [some 10] []]
    [CacheRow.mk [some 1] (some 99) (some 0) (some 5) []]
    (Row.mk [some 1] [some 10] []) [some 1]
    (by decide) (by decide) (by decide)


/-! ### Lemmas about the window sort and the row budget -/

theorem ltLe_total (a b : Option Int) : ltLe a b = true ∨ ltLe b a = true := by
  cases a with
  | none => exact Or.inl rfl
  | some x =>
    cases b with
    | none => exact Or.inr rfl
    | some y =>
      rcases Int.le_total x y with h | h
      · exact Or.inl (by simp [ltLe, h])
      · exact Or.inr (by simp [ltLe, h])

theorem prLe_total (a b : PRow) : prLe a b = true ∨ prLe b a = true := by
  unfold prLe
  rcases Nat.lt_trichotomy a.prio b.prio with h | h | h
  · exact Or.inl (by simp [h])
  · rcases ltLe_total a.lt b.lt with hl | hl
    · exact Or.inl (by simp [h, hl])
    · exact Or.inr (by simp [h.symm, hl])
  · exact Or.inr (by simp [h])

theorem prio_le_of_prLe {a b : PRow} (h : prLe a b = true) : a.prio ≤ b.prio := by
  unfold prLe at h
  simp only [Bool.or_eq_true, Bool.and_eq_true, decide_eq_true_eq] at h
  rcases h with h | ⟨h, _⟩
  · exact Nat.le_of_lt h
  · exact Nat.le_of_eq h

theorem prio_ge_of_not_prLe {a b : PRow} (h : ¬ prLe a b = true) : b.prio ≤ a.prio := by
  rcases prLe_total a b with h' | h'
  · exact absurd h' h
  · exact prio_le_of_prLe h'

theorem pairwise_insertRow {p : PRow} {l : List PRow}
    (hl : l.Pairwise (fun a b => a.prio ≤ b.prio)) :
    (insertRow p l).Pairwise (fun a b => a.prio ≤ b.prio) := by
  induction l with
  | nil => simp [insertRow]
  | cons a t ih =>
    rcases List.pairwise_cons.mp hl with ⟨ha, ht⟩
    unfold insertRow
    by_cases h : prLe p a = true
    · rw [if_pos h]
      refine List.pairwise_cons.mpr ⟨?_, hl⟩
      intro x hx
      rcases List.mem_cons.mp hx with rfl | hx'
      · exact prio_le_of_prLe h
      · exact Nat.le_trans (prio_le_of_prLe h) (ha x hx')
    · rw [if_neg h]
      refine List.pairwise_cons.mpr ⟨?_, ih ht⟩
      intro x hx
      rcases mem_insertRow.mp hx with rfl | hx'
      · exact prio_ge_of_not_prLe h
      · exact ha x hx'

theorem pairwise_sortRows (l : List PRow) :
    (sortRows l).Pairwise (fun a b => a.prio ≤ b.prio) := by
  induction l with
  | nil => simp [sortRows]
  | cons a t ih => exact pairwise_insertRow ih

theorem countP_insertRow (f : PRow → Bool) (p : PRow) (l : List PRow) :
    (insertRow p l).countP f = l.countP f + (if f p then 1 else 0) := by
  induction l with
  | nil => simp [insertRow, List.countP_cons]
  | cons a t ih =>
    unfold insertRow
    by_cases h : prLe p a = true
    · rw [if_pos h]
      simp [List.countP_cons]
    · rw [if_neg h]
      simp only [List.countP_cons, ih]
      omega

theorem countP_sortRows (f : PRow → Bool) (l : List PRow) :
    (sortRows l).countP f = l.countP f := by
  induction l with
  | nil => rfl
  | cons a t ih =>
    unfold sortRows
    rw [countP_insertRow, ih, List.countP_cons]

/-- A sorted list with priorities at most 3 splits into its priority-(<3)
prefix followed by its priority-3 suffix. -/
theorem sorted_split (s : List PRow)
    (hs : s.Pairwise (fun a b => a.prio ≤ b.prio))
    (hr : ∀ p ∈ s, p.prio ≤ 3) :
    s = s.filter (fun p => decide (p.prio < 3)) ++
        s.filter (fun p => decide (p.prio = 3)) := by
  induction s with
  | nil => rfl
  | cons a t ih =>
    rcases List.pairwise_cons.mp hs with ⟨ha, ht⟩
    by_cases h : a.prio < 3
    · have h3 : ¬ a.prio = 3 := by omega
      have e1 : (a :: t).filter (fun p => decide (p.prio < 3)) =
          a :: t.filter (fun p => decide (p.prio < 3)) := by
        simp [List.filter_cons, h]
      have e2 : (a :: t).filter (fun p => decide (p.prio = 3)) =
          t.filter (fun p => decide (p.prio = 3)) := by
        simp [List.filter_cons, h3]
      rw [e1, e2, List.cons_append]
      congr 1
      exact ih ht (fun p hp => hr p (List.mem_cons_of_mem _ hp))
    · have h3 : a.prio = 3 := by
        have := hr a (List.mem_cons_self _ _)
        omega
      have htall : ∀ p ∈ t, p.prio = 3 := by
        intro p hp
        have h1 := ha p hp
        have h2 := hr p (List.mem_cons_of_mem _ hp)
        omega
      have hfilt1 : t.filter (fun p => decide (p.prio < 3)) = [] := by
        rw [List.filter_eq_nil_iff]
        intro p hp
        simp only [decide_eq_true_eq]
        have := htall p hp
        omega
      have hfilt2 : t.filter (fun p => decide (p.prio = 3)) = t := by
        rw [List.filter_eq_self]
        intro p hp
        simp [htall p hp]
      have e1 : (a :: t).filter (fun p => decide (p.prio < 3)) = [] := by
        simp [List.filter_cons, h, hfilt1]
      have e2 : (a :: t).filter (fun p => decide (p.prio = 3)) =
          a :: t.filter (fun p => decide (p.prio = 3)) := by
        simp [List.filter_cons, h3]
      rw [e1, e2, hfilt2, List.nil_append]

theorem budgetGo_low_segment (limit i : Int) (A B : List PRow)
    (hA : ∀ p ∈ A, p.prio < 3) :
    budgetGo limit i (A ++ B) = A ++ budgetGo limit (i + A.length) B := by
  induction A generalizing i with
  | nil => simp [budgetGo]
  | cons a A' ih =>
    have ha : a.prio < 3 := hA a (List.mem_cons_self _ _)
    have hidx : i + ((a :: A').length : Int) = (i + 1) + (A'.length : Int) := by
      simp only [List.length_cons]
      push_cast
      ring
    rw [List.cons_append, hidx]
    show budgetGo limit i (a :: (A' ++ B)) = a :: A' ++ budgetGo limit (i + 1 + (A'.length : Int)) B
    rw [show budgetGo limit i (a :: (A' ++ B)) =
        if a.prio < 3 ∨ i ≤ limit then a :: budgetGo limit (i + 1) (A' ++ B)
        else budgetGo limit (i + 1) (A' ++ B) from rfl]
    rw [if_pos (Or.inl ha), ih (i + 1) (fun p hp => hA p (List.mem_cons_of_mem _ hp)),
      List.cons_append]

theorem budgetGo_all_three (limit : Int) (B : List PRow)
    (hB : ∀ p ∈ B, p.prio = 3) :
    ∀ i : Int, budgetGo limit i B = B.take (limit - i + 1).toNat := by
  induction B with
  | nil => intro i; simp [budgetGo]
  | cons b B' ih =>
    intro i
    have hb : b.prio = 3 := hB b (List.mem_cons_self _ _)
    have hb3 : ¬ b.prio < 3 := by omega
    unfold budgetGo
    by_cases hi : i ≤ limit
    · rw [if_pos (Or.inr hi)]
      rw [ih (fun p hp => hB p (List.mem_cons_of_mem _ hp)) (i + 1)]
      have h1 : (limit - i + 1).toNat = (limit - (i + 1) + 1).toNat + 1 := by omega
      rw [h1, List.take_succ_cons]
    · rw [if_neg (by tauto)]
      rw [ih (fun p hp => hB p (List.mem_cons_of_mem _ hp)) (i + 1)]
      have h1 : (limit - (i + 1) + 1).toNat = 0 := by omega
      have h2 : (limit - i + 1).toNat = 0 := by omega
      rw [h1, h2]
      simp


theorem ladder_cases (b : Bool) (p2 p3 : Prop) [Decidable p2] [Decidable p3] :
    (if b = true then 1 else if p2 then 2 else if p3 then 3 else 1000) = 1 ∨
    (if b = true then 1 else if p2 then 2 else if p3 then 3 else 1000) = 2 ∨
    (if b = true then 1 else if p2 then 2 else if p3 then 3 else 1000) = 3 ∨
    (if b = true then 1 else if p2 then 2 else if p3 then 3 else 1000) = 1000 := by
  by_cases h1 : b = true
  · rw [if_pos h1]
    exact Or.inl rfl
  · rw [if_neg h1]
    by_cases h2 : p2
    · rw [if_pos h2]
      exact Or.inr (Or.inl rfl)
    · rw [if_neg h2]
      by_cases h3 : p3
      · rw [if_pos h3]
        exact Or.inr (Or.inr (Or.inl rfl))
      · rw [if_neg h3]
        exact Or.inr (Or.inr (Or.inr rfl))

theorem priority_cases (P : Params) (hashFn : List Val → Int) (now : Int)
    (r : Row) (cOpt : Option CacheRow) :
    priority P hashFn now r cOpt = 1 ∨ priority P hashFn now r cOpt = 2 ∨
    priority P hashFn now r cOpt = 3 ∨ priority P hashFn now r cOpt = 1000 := by
  rcases cOpt with _ | c
  · exact Or.inl rfl
  · simp only [priority]
    rcases hlt : c.loadedTime with _ | lt
    · exact Or.inl rfl
    · exact ladder_cases _ _ _

theorem mem_filteredClassified_prio {P : Params} {hashFn : List Val → Int}
    {now : Int} {dfp : List Row} {cache : List CacheRow} {p : PRow}
    (hp : p ∈ filteredClassified P hashFn now dfp cache) :
    p.prio = 1 ∨ p.prio = 2 ∨ p.prio = 3 := by
  unfold filteredClassified at hp
  have h1 := List.mem_filter.mp hp
  have hlt : p.prio < 100 := by simpa using h1.2
  obtain ⟨rc, hrc, rfl⟩ := mem_classified_iff.mp h1.1
  rcases priority_cases P hashFn now rc.1 rc.2 with h | h | h | h <;>
    simp only [PRow.prio] at hlt ⊢ <;> rw [h] at hlt ⊢ <;> simp at hlt ⊢

theorem countP_lt_three_split (l : List PRow)
    (hl : ∀ p ∈ l, p.prio = 1 ∨ p.prio = 2 ∨ p.prio = 3) :
    l.countP (fun p => decide (p.prio < 3)) =
      l.countP (fun p => decide (p.prio = 1)) +
        l.countP (fun p => decide (p.prio = 2)) := by
  induction l with
  | nil => rfl
  | cons a t ih =>
    have ha := hl a (List.mem_cons_self _ _)
    simp only [List.countP_cons]
    rw [ih (fun p hp => hl p (List.mem_cons_of_mem _ hp))]
    rcases ha with h | h | h <;> simp [h] <;> omega

theorem budgetAdmitted_eq (P : Params) (l : List PRow)
    (hlim : P.refresh_row_limit > 0)
    (hl : ∀ p ∈ l, p.prio ≤ 3) :
    budgetAdmitted P l =
      (sortRows l).filter (fun p => decide (p.prio < 3)) ++
        ((sortRows l).filter (fun p => decide (p.prio = 3))).take
          ((P.refresh_row_limit -
            (((sortRows l).filter (fun p => decide (p.prio < 3))).length : Int)).toNat) := by
  have hA : ∀ p ∈ (sortRows l).filter (fun p => decide (p.prio < 3)), p.prio < 3 := by
    intro p hp
    simpa using (List.mem_filter.mp hp).2
  have hB : ∀ p ∈ (sortRows l).filter (fun p => decide (p.prio = 3)), p.prio = 3 := by
    intro p hp
    simpa using (List.mem_filter.mp hp).2
  have hs : sortRows l =
      (sortRows l).filter (fun p => decide (p.prio < 3)) ++
        (sortRows l).filter (fun p => decide (p.prio = 3)) :=
    sorted_split (sortRows l) (pairwise_sortRows l)
      (fun p hp => hl p (mem_sortRows.mp hp))
  unfold budgetAdmitted
  rw [if_pos hlim]
  conv_lhs => rw [hs]
  rw [budgetGo_low_segment _ _ _ _ hA,
    budgetGo_all_three _ _ hB _]
  congr 2
  omega

theorem budgetAdmitted_count3 (P : Params) (l : List PRow)
    (hlim : P.refresh_row_limit > 0)
    (hl : ∀ p ∈ l, p.prio = 1 ∨ p.prio = 2 ∨ p.prio = 3) :
    ((budgetAdmitted P l).countP (fun p => decide (p.prio = 3)) : Int) =
      max 0 (min (l.countP (fun p => decide (p.prio = 3)) : Int)
        (P.refresh_row_limit -
          (l.countP (fun p => decide (p.prio = 1)) : Int) -
          (l.countP (fun p => decide (p.prio = 2)) : Int))) := by
  have hle : ∀ p ∈ l, p.prio ≤ 3 := by
    intro p hp
    rcases hl p hp with h | h | h <;> omega
  rw [budgetAdmitted_eq P l hlim hle, List.countP_append]
  have hA0 : ((sortRows l).filter (fun p => decide (p.prio < 3))).countP
      (fun p => decide (p.prio = 3)) = 0 := by
    rw [List.countP_eq_zero]
    intro p hp
    have := (List.mem_filter.mp hp).2
    simp only [decide_eq_true_eq] at this ⊢
    omega
  have htake : ∀ t : Nat,
      (((sortRows l).filter (fun p => decide (p.prio = 3))).take t).countP
        (fun p => decide (p.prio = 3)) =
      (((sortRows l).filter (fun p => decide (p.prio = 3))).take t).length := by
    intro t
    rw [List.countP_eq_length]
    intro p hp
    have hmem : p ∈ (sortRows l).filter (fun p => decide (p.prio = 3)) :=
      List.take_subset _ _ hp
    exact (List.mem_filter.mp hmem).2
  rw [hA0, htake, List.length_take]
  have e1 : ((sortRows l).filter (fun p => decide (p.prio < 3))).length =
      l.countP (fun p => decide (p.prio < 3)) := by
    rw [← List.countP_eq_length_filter, countP_sortRows]
  have e2 : ((sortRows l).filter (fun p => decide (p.prio = 3))).length =
      l.countP (fun p => decide (p.prio = 3)) := by
    rw [← List.countP_eq_length_filter, countP_sortRows]
  rw [e1, e2, countP_lt_three_split l hl]
  omega


/-- Concrete example batch row with a key absent from the example cache. -/
def exNew : Row := ⟨[some 1], [some 10], []⟩

/-- Concrete example batch row whose key is cached with a matching hash
and an old `loadedTime`. -/
def exOld : Row := ⟨[some 2], [some 20], []⟩

/-- The cache row for `exOld`: hash matches, loaded at time 0. -/
def exCache : CacheRow := ⟨[some 2], some (sumHash exOld.allCols), some 0, none, []⟩

/-- Example parameters: `refresh_ttl = 10`, `refresh_row_limit = 1`. -/
def exParams : Params := ⟨0, 10, 1⟩

/-- C2 counterexample: with `refresh_row_limit = 1`, one new (priority-1)
row and one soft-refresh (priority-3) row, the priority-3 row is NOT
admitted to `to_be_written` even though it is the first (and only)
priority-3 row in loadedTime order and the limit is 1: the budget rank is
global, so the priority-1 row consumes the budget.  This refutes the
claim that exactly the first `refresh_row_limit` priority-3 rows appear
regardless of how many priority-1/2 rows are present. -/
theorem C2_counterexample :
    (0 : Int) < exParams.refresh_row_limit ∧
    (classified exParams sumHash 100 ([exNew, exOld].filter nullFreeKeys)
        [exCache]).map PRow.prio = [1, 3] ∧
    exOld ∉ (discard_non_new_rows_against_cache exParams sumHash 100
        [exNew, exOld] [exCache]).to_be_written := by
  refine ⟨by decide, by decide, by decide⟩

/-- C2 (amended): priority-1 and priority-2 rows are always admitted to
`to_be_written`; with `refresh_row_limit <= 0` every priority-3 row is
admitted; with `refresh_row_limit > 0` the rows are ranked globally by
(priority, loadedTime) — so every priority-1/2 row is ranked before every
priority-3 row and consumes budget — and the admitted rows are the
priority-1/2 rows followed by the first `refresh_row_limit − #(priority<3)`
priority-3 rows in loadedTime order. -/
theorem C2_budget_structure (P : Params) (hashFn : List Val → Int) (now : Int)
    (dfIn : List Row) (cache : List CacheRow) :
    let fl := filteredClassified P hashFn now (dfIn.filter nullFreeKeys) cache
    (∀ p ∈ fl, p.prio < 3 →
      p.row ∈ (discard_non_new_rows_against_cache P hashFn now dfIn cache).to_be_written) ∧
    (P.refresh_row_limit ≤ 0 →
      (discard_non_new_rows_against_cache P hashFn now dfIn cache).to_be_written =
        fl.map PRow.row) ∧
    (P.refresh_row_limit > 0 →
      (discard_non_new_rows_against_cache P hashFn now dfIn cache).to_be_written =
        ((sortRows fl).filter (fun p => decide (p.prio < 3)) ++
          ((sortRows fl).filter (fun p => decide (p.prio = 3))).take
            ((P.refresh_row_limit -
              (((sortRows fl).filter (fun p => decide (p.prio < 3))).length : Int)).toNat)).map
          PRow.row) := by
  intro fl
  refine ⟨?_, ?_, ?_⟩
  · intro p hp hprio
    unfold discard_non_new_rows_against_cache
    simp only [List.mem_map]
    exact ⟨p, mem_budgetAdmitted_low hp hprio, rfl⟩
  · intro hlim
    unfold discard_non_new_rows_against_cache budgetAdmitted
    dsimp only
    rw [if_neg (show ¬ P.refresh_row_limit > 0 by omega)]
  · intro hlim
    have hl3 : ∀ p ∈ fl, p.prio ≤ 3 := by
      intro p hp
      rcases mem_filteredClassified_prio hp with h | h | h <;> omega
    have heq := budgetAdmitted_eq P fl hlim hl3
    unfold discard_non_new_rows_against_cache
    dsimp only
    rw [show budgetAdmitted P (filteredClassified P hashFn now
        (dfIn.filter nullFreeKeys) cache) = budgetAdmitted P fl from rfl, heq]

/-- Witness for C2 (amended) at the concrete counterexample input. -/
theorem C2_witness :
    (let fl := filteredClassified exParams sumHash 100
        ([exNew, exOld].filter nullFreeKeys) [exCache]
     (∀ p ∈ fl, p.prio < 3 →
        p.row ∈ (discard_non_new_rows_against_cache exParams sumHash 100
          [exNew, exOld] [exCache]).to_be_written) ∧
     (exParams.refresh_row_limit ≤ 0 →
        (discard_non_new_rows_against_cache exParams sumHash 100
          [exNew, exOld] [exCache]).to_be_written = fl.map PRow.row) ∧
     (exParams.refresh_row_limit > 0 →
        (discard_non_new_rows_against_cache exParams sumHash 100
          [exNew, exOld] [exCache]).to_be_written =
          ((sortRows fl).filter (fun p => decide (p.prio < 3)) ++
            ((sortRows fl).filter (fun p => decide (p.prio = 3))).take
              ((exParams.refresh_row_limit -
                (((sortRows fl).filter (fun p => decide (p.prio < 3))).length : Int)).toNat)).map
            PRow.row)) :=
  C2_budget_structure exParams sumHash 100 [exNew, exOld] [exCache]

/-- C9: with `refresh_row_limit > 0` the number of priority-3 rows
admitted to `to_be_written` equals `max 0 (min n3 (limit − n1 − n2))`
where `n1, n2, n3` count the priority-1/2/3 rows; in particular when
`n1 + n2 ≥ limit` no priority-3 row is admitted at all. -/
theorem C9_budget_count (P : Params) (hashFn : List Val → Int) (now : Int)
    (dfIn : List Row) (cache : List CacheRow)
    (hlim : P.refresh_row_limit > 0) :
    let fl := filteredClassified P hashFn now (dfIn.filter nullFreeKeys) cache
    ((budgetAdmitted P fl).countP (fun p => decide (p.prio = 3)) : Int) =
      max 0 (min (fl.countP (fun p => decide (p.prio = 3)) : Int)
        (P.refresh_row_limit -
          (fl.countP (fun p => decide (p.prio = 1)) : Int) -
          (fl.countP (fun p => decide (p.prio = 2)) : Int))) ∧
    (discard_non_new_rows_against_cache P hashFn now dfIn cache).to_be_written =
      (budgetAdmitted P fl).map PRow.row ∧
    ((fl.countP (fun p => decide (p.prio = 1)) : Int) +
        (fl.countP (fun p => decide (p.prio = 2)) : Int) ≥ P.refresh_row_limit →
      ∀ p ∈ budgetAdmitted P fl, ¬ p.prio = 3) := by
  intro fl
  have hcnt := budgetAdmitted_count3 P fl hlim
    (fun p hp => mem_filteredClassified_prio hp)
  refine ⟨hcnt, rfl, ?_⟩
  intro hge p hp h3
  have hzero : ((budgetAdmitted P fl).countP (fun p => decide (p.prio = 3)) : Int) = 0 := by
    rw [hcnt]
    omega
  have : (budgetAdmitted P fl).countP (fun p => decide (p.prio = 3)) = 0 := by
    exact_mod_cast hzero
  rw [List.countP_eq_zero] at this
  have := this p hp
  simp [h3] at this

/-- Witness for C9 at the concrete counterexample input (one priority-1
row, one priority-3 row, limit 1: no priority-3 row admitted). -/
theorem C9_witness :
    (let fl := filteredClassified exParams sumHash 100
        ([exNew, exOld].filter nullFreeKeys) [exCache]
     ((budgetAdmitted exParams fl).countP (fun p => decide (p.prio = 3)) : Int) =
        max 0 (min (fl.countP (fun p => decide (p.prio = 3)) : Int)
          (exParams.refresh_row_limit -
            (fl.countP (fun p => decide (p.prio = 1)) : Int) -
            (fl.countP (fun p => decide (p.prio = 2)) : Int))) ∧
     (discard_non_new_rows_against_cache exParams sumHash 100
        [exNew, exOld] [exCache]).to_be_written =
       (budgetAdmitted exParams fl).map PRow.row ∧
     ((fl.countP (fun p => decide (p.prio = 1)) : Int) +
         (fl.countP (fun p => decide (p.prio = 2)) : Int) ≥ exParams.refresh_row_limit →
       ∀ p ∈ budgetAdmitted exParams fl, ¬ p.prio = 3)) :=
  C9_budget_count exParams sumHash 100 [exNew, exOld] [exCache] (by decide)


/-! ### Lemmas for the idempotence property -/

theorem dedupByKeysAux_spec (l : List Row) :
    ∀ seen : List (List Val),
      (dedupByKeysAux seen l).Pairwise (fun a b => ¬ a.keys = b.keys) ∧
      ∀ r ∈ dedupByKeysAux seen l, ∀ k ∈ seen, ¬ r.keys = k := by
  induction l with
  | nil =>
    intro seen
    exact ⟨List.Pairwise.nil, by intro r hr; cases hr⟩
  | cons r rs ih =>
    intro seen
    unfold dedupByKeysAux
    by_cases h : seen.any (fun k => decide (k = r.keys)) = true
    · rw [if_pos h]
      exact ih seen
    · rw [if_neg h]
      obtain ⟨hp, hseen⟩ := ih (r.keys :: seen)
      have hnot : ∀ k ∈ seen, ¬ k = r.keys := by
        intro k hk hkk
        simp only [List.any_eq_true, decide_eq_true_eq] at h
        exact h ⟨k, hk, hkk⟩
      constructor
      · refine List.pairwise_cons.mpr ⟨?_, hp⟩
        intro b hb
        intro hbk
        exact hseen b hb r.keys (List.mem_cons_self _ _) hbk.symm
      · intro r' hr' k hk
        rcases List.mem_cons.mp hr' with rfl | hr''
        · intro hrk
          exact hnot k hk hrk.symm
        · exact hseen r' hr'' k (List.mem_cons_of_mem _ hk)

theorem dedupByKeys_pairwise (l : List Row) :
    (dedupByKeys l).Pairwise (fun a b => ¬ a.keys = b.keys) :=
  (dedupByKeysAux_spec l []).1

theorem eq_of_mem_pairwise_keys {l : List Row}
    (hl : l.Pairwise (fun a b => ¬ a.keys = b.keys)) {a b : Row}
    (ha : a ∈ l) (hb : b ∈ l) (hk : a.keys = b.keys) : a = b := by
  induction l with
  | nil => cases ha
  | cons x t ih =>
    rcases List.pairwise_cons.mp hl with ⟨hx, ht⟩
    rcases List.mem_cons.mp ha with rfl | ha'
    · rcases List.mem_cons.mp hb with rfl | hb'
      · rfl
      · exact absurd hk (hx b hb')
    · rcases List.mem_cons.mp hb with rfl | hb'
      · exact absurd hk.symm (hx a ha')
      · exact ih ht ha' hb'

theorem mergeUpsert_keyed_update {tbl us : List CacheRow} {k : List Val}
    {u0 : CacheRow} (hu0 : u0 ∈ us) (hu0k : u0.keys = k)
    (huniq : ∀ u ∈ us, u.keys = k → u = u0) :
    u0 ∈ mergeUpsert tbl us ∧
    ∀ c' ∈ mergeUpsert tbl us, c'.keys = k → c' = u0 := by
  constructor
  · by_cases htbl : ∃ c ∈ tbl, c.keys = k
    · obtain ⟨c, hc, hck⟩ := htbl
      cases hf : us.find? (fun u => decide (u.keys = c.keys)) with
      | none =>
        rw [List.find?_eq_none] at hf
        exact absurd (by simp [hu0k, hck]) (hf u0 hu0)
      | some u =>
        have hupred : u.keys = c.keys := by
          have := List.find?_some hf
          simpa using this
        have hueq : u = u0 := huniq u (List.mem_of_find?_eq_some hf)
          (by rw [hupred, hck])
        apply List.mem_append_left
        refine List.mem_map.mpr ⟨c, hc, ?_⟩
        rw [hf]
        exact hueq
    · apply List.mem_append_right
      refine List.mem_filter.mpr ⟨hu0, ?_⟩
      push_neg at htbl
      have hfalse : tbl.any (fun c => decide (c.keys = u0.keys)) = false := by
        rw [List.any_eq_false]
        intro c hc
        simp only [decide_eq_true_eq]
        intro hck
        exact htbl c hc (hck.trans hu0k)
      simp [hfalse]
  · intro c' hc' hk
    rcases List.mem_append.mp hc' with hmap | hins
    · obtain ⟨c, hc, hceq⟩ := List.mem_map.mp hmap
      cases hf : us.find? (fun u => decide (u.keys = c.keys)) with
      | some u =>
        rw [hf] at hceq
        have huc : u = c' := hceq
        have humem := List.mem_of_find?_eq_some hf
        have hu0' : u = u0 := huniq u humem (by rw [huc]; exact hk)
        exact huc ▸ hu0'
      | none =>
        rw [hf] at hceq
        have hcc : c = c' := hceq
        rw [List.find?_eq_none] at hf
        have hne : ¬ u0.keys = c.keys := by simpa using hf u0 hu0
        exact absurd (by rw [hu0k, hcc]; exact hk.symm) hne
    · have hc'u := (List.mem_filter.mp hins).1
      exact huniq c' hc'u hk


theorem mergeUpsert_untouched_key {tbl us : List CacheRow} {k : List Val}
    (h : ∀ u ∈ us, ¬ u.keys = k) (c' : CacheRow) :
    (c' ∈ mergeUpsert tbl us ∧ c'.keys = k) ↔ (c' ∈ tbl ∧ c'.keys = k) := by
  constructor
  · rintro ⟨hc', hk⟩
    rcases List.mem_append.mp hc' with hmap | hins
    · obtain ⟨c, hc, hceq⟩ := List.mem_map.mp hmap
      cases hf : us.find? (fun u => decide (u.keys = c.keys)) with
      | some u =>
        rw [hf] at hceq
        have huc : u = c' := hceq
        have humem := List.mem_of_find?_eq_some hf
        exact absurd (huc ▸ hk) (h u humem)
      | none =>
        rw [hf] at hceq
        have hcc : c = c' := hceq
        exact ⟨hcc ▸ hc, hk⟩
    · have := (List.mem_filter.mp hins).1
      exact absurd hk (h c' this)
  · rintro ⟨hc, hk⟩
    refine ⟨List.mem_append_left _ ?_, hk⟩
    refine List.mem_map.mpr ⟨c', hc, ?_⟩
    have hf : us.find? (fun u => decide (u.keys = c'.keys)) = none := by
      rw [List.find?_eq_none]
      intro u hu
      simp only [decide_eq_true_eq]
      rw [hk]
      exact h u hu
    rw [hf]

/-- The freshness invariant: every processed incoming row has at least one
cache counterpart, and every cache counterpart stores exactly the row's
current content hash. -/
def cacheFresh (hashFn : List Val → Int) (dfp : List Row)
    (cache : List CacheRow) : Prop :=
  ∀ r ∈ dfp, (∃ c ∈ cache, c.keys = r.keys) ∧
    ∀ c ∈ cache, c.keys = r.keys → c.rowHash = some (reduceRowHash hashFn r)

theorem priority_match_ttl_off {P : Params} {hashFn : List Val → Int}
    {now : Int} {r : Row} {c : CacheRow} {lt : Int}
    (hmax : P.max_ttl ≤ 0) (href : P.refresh_ttl ≤ 0)
    (hlt : c.loadedTime = some lt)
    (hh : c.rowHash = some (reduceRowHash hashFn r)) :
    priority P hashFn now r (some c) = 1000 := by
  rcases c with ⟨ck, ch, clt, cdt, cid⟩
  dsimp only at hlt hh
  subst hlt
  subst hh
  simp only [priority]
  rw [if_neg (by simp), if_neg (by omega), if_neg (by omega)]

theorem ladder_ttl_off (b : Bool) (p2 p3 : Prop) [Decidable p2] [Decidable p3]
    (h2 : ¬ p2) (h3 : ¬ p3) :
    (if b = true then 1 else if p2 then 2 else if p3 then 3 else 1000) = 1 ∨
    (if b = true then 1 else if p2 then 2 else if p3 then 3 else 1000) = 1000 := by
  by_cases h1 : b = true
  · rw [if_pos h1]
    exact Or.inl rfl
  · rw [if_neg h1, if_neg h2, if_neg h3]
    exact Or.inr rfl

theorem priority_ttl_off_cases {P : Params} {hashFn : List Val → Int}
    {now : Int} {r : Row} {cOpt : Option CacheRow}
    (hmax : P.max_ttl ≤ 0) (href : P.refresh_ttl ≤ 0) :
    priority P hashFn now r cOpt = 1 ∨ priority P hashFn now r cOpt = 1000 := by
  rcases cOpt with _ | c
  · exact Or.inl rfl
  · simp only [priority]
    rcases hlt : c.loadedTime with _ | lt
    · exact Or.inl rfl
    · exact ladder_ttl_off _ _ _ (by omega) (by omega)

theorem priority_eq_1000_hash {P : Params} {hashFn : List Val → Int}
    {now : Int} {r : Row} {c : CacheRow} {hv : Int}
    (h1000 : priority P hashFn now r (some c) = 1000)
    (hh : c.rowHash = some hv) : hv = reduceRowHash hashFn r := by
  by_contra hne
  rcases c with ⟨ck, ch, clt, cdt, cid⟩
  dsimp only at hh
  subst hh
  rcases hlt : clt with _ | lt
  · subst hlt
    simp only [priority] at h1000
    cases h1000
  · subst hlt
    simp only [priority] at h1000
    rw [if_pos (by simp [hne])] at h1000
    cases h1000

theorem budgetAdmitted_nil (P : Params) : budgetAdmitted P [] = [] := by
  unfold budgetAdmitted
  split <;> rfl

/-- With both ttls disabled and a fresh cache, every joined incoming row
is classified priority 1000 and `to_be_written` is empty. -/
theorem reduce_fresh_ttl_off (P : Params) (hashFn : List Val → Int)
    (now : Int) (dfIn : List Row) (cache : List CacheRow)
    (hmax : P.max_ttl ≤ 0) (href : P.refresh_ttl ≤ 0)
    (hact : ∀ c ∈ cache, c.loadedTime ≠ none ∧ c.rowHash ≠ none)
    (hfresh : cacheFresh hashFn (dfIn.filter nullFreeKeys) cache) :
    (∀ p ∈ classified P hashFn now (dfIn.filter nullFreeKeys) cache,
      p.prio = 1000) ∧
    (discard_non_new_rows_against_cache P hashFn now dfIn cache).to_be_written = [] := by
  have hmain : ∀ p ∈ classified P hashFn now (dfIn.filter nullFreeKeys) cache,
      p.prio = 1000 := by
    intro p hp
    obtain ⟨rc, hrc, rfl⟩ := mem_classified_iff.mp hp
    obtain ⟨hr, hsnd⟩ := mem_incomingPairs_elim hrc
    obtain ⟨⟨c0, hc0, hc0k⟩, hhash⟩ := hfresh rc.1 hr
    rcases hsnd with ⟨hnone, hmatches⟩ | ⟨c, hc, hsome, hck⟩
    · exfalso
      have hcm : c0 ∈ cacheMatches cache rc.1 := by
        unfold cacheMatches
        simp only [List.mem_filter, decide_eq_true_eq]
        exact ⟨hc0, hc0k⟩
      rw [hmatches] at hcm
      cases hcm
    · obtain ⟨lt, hlt⟩ := Option.ne_none_iff_exists'.mp (hact c hc).1
      have hh : c.rowHash = some (reduceRowHash hashFn rc.1) := hhash c hc hck
      show priority P hashFn now rc.1 rc.2 = 1000
      rw [hsome]
      exact priority_match_ttl_off hmax href hlt hh
  refine ⟨hmain, ?_⟩
  have hfl : filteredClassified P hashFn now (dfIn.filter nullFreeKeys) cache = [] := by
    unfold filteredClassified
    rw [List.filter_eq_nil_iff]
    intro p hp
    simp only [decide_eq_true_eq]
    rw [hmain p hp]
    omega
  unfold discard_non_new_rows_against_cache
  dsimp only
  rw [show filteredClassified P hashFn now (dfIn.filter nullFreeKeys) cache = [] from hfl,
    budgetAdmitted_nil]
  rfl


theorem prepare_written_keys (hashFn : List Val → Int) (now : Int) (r : Row) :
    (prepare_written_cache_row hashFn now r).keys = r.keys := rfl

theorem prepare_deleted_keys (now : Int) (c : CacheRow) :
    (prepare_deleted_cache_row now c).keys = c.keys := rfl

/-- After one reduction round followed by the write-branch merge and the
delete-branch merge (with identity write/delete operations), the cache is
fresh for the same processed batch: every processed row has an active
cache counterpart carrying exactly its current hash. -/
theorem fresh_after_merges (P : Params) (hashFn : List Val → Int)
    (now1 : Int) (cache0 : List CacheRow) (df : List Row)
    (hmax : P.max_ttl ≤ 0) (href : P.refresh_ttl ≤ 0)
    (hpw : (df.filter nullFreeKeys).Pairwise (fun a b => ¬ a.keys = b.keys)) :
    cacheFresh hashFn (df.filter nullFreeKeys)
      (extract_cache
        (mergeUpsert
          (mergeUpsert cache0
            ((discard_non_new_rows_against_cache P hashFn now1 df
              (extract_cache cache0)).to_be_written.map
              (prepare_written_cache_row hashFn now1)))
          ((discard_non_new_rows_against_cache P hashFn now1 df
            (extract_cache cache0)).to_be_deleted.map
            (prepare_deleted_cache_row now1)))) := by
  intro r hr
  set dfp := df.filter nullFreeKeys with hdfp
  set cache1 := extract_cache cache0 with hcache1
  set res := discard_non_new_rows_against_cache P hashFn now1 df cache1 with hres
  set wUp := res.to_be_written.map (prepare_written_cache_row hashFn now1) with hwUp
  set dUp := res.to_be_deleted.map (prepare_deleted_cache_row now1) with hdUp
  set mid := mergeUpsert cache0 wUp with hmid
  set tbl1 := mergeUpsert mid dUp with htbl1
  have hd : ∀ u ∈ dUp, ¬ u.keys = r.keys := by
    intro u hu
    obtain ⟨c, hc, rfl⟩ := List.mem_map.mp hu
    rw [prepare_deleted_keys]
    intro hck
    have := (mem_toBeDeleted_iff.mp hc).2 r hr
    exact this hck.symm
  by_cases hrtw : r ∈ res.to_be_written
  · -- the row was written: its cache entry is the freshly prepared row
    have hu0 : prepare_written_cache_row hashFn now1 r ∈ wUp :=
      List.mem_map.mpr ⟨r, hrtw, rfl⟩
    have huniq : ∀ u ∈ wUp, u.keys = r.keys →
        u = prepare_written_cache_row hashFn now1 r := by
      intro u hu hk
      obtain ⟨r', hr', rfl⟩ := List.mem_map.mp hu
      rw [prepare_written_keys] at hk
      have hr'dfp : r' ∈ dfp := row_mem_dfp_of_mem_toBeWritten hr'
      have : r' = r := eq_of_mem_pairwise_keys hpw hr'dfp hr hk
      rw [this]
    obtain ⟨hmemmid, huniqmid⟩ :=
      @mergeUpsert_keyed_update cache0 wUp r.keys _ hu0 (prepare_written_keys _ _ _) huniq
    have hiff := fun c' => @mergeUpsert_untouched_key mid dUp r.keys hd c'
    constructor
    · refine ⟨prepare_written_cache_row hashFn now1 r, ?_, prepare_written_keys _ _ _⟩
      have h1 : prepare_written_cache_row hashFn now1 r ∈ tbl1 :=
        ((hiff _).mpr ⟨hmemmid, prepare_written_keys _ _ _⟩).1
      exact mem_extract_cache.mpr ⟨h1, rfl, by simp [prepare_written_cache_row],
        by simp [prepare_written_cache_row]⟩
    · intro c' hc' hk
      have h1 := mem_extract_cache.mp hc'
      have h2 : c' ∈ mid := ((hiff c').mp ⟨h1.1, hk⟩).1
      have h3 := huniqmid c' h2 hk
      rw [h3]
      rfl
  · -- the row was already up to date: its cache0 entries are untouched
    have hw : ∀ u ∈ wUp, ¬ u.keys = r.keys := by
      intro u hu
      obtain ⟨r', hr', rfl⟩ := List.mem_map.mp hu
      rw [prepare_written_keys]
      intro hk
      have hr'dfp : r' ∈ dfp := row_mem_dfp_of_mem_toBeWritten hr'
      have : r' = r := eq_of_mem_pairwise_keys hpw hr'dfp hr hk
      exact hrtw (this ▸ hr')
    have hiff1 := fun c' => @mergeUpsert_untouched_key mid dUp r.keys hd c'
    have hiff2 := fun c' => @mergeUpsert_untouched_key cache0 wUp r.keys hw c'
    have hkeyrows : ∀ c', (c' ∈ tbl1 ∧ c'.keys = r.keys) ↔
        (c' ∈ cache0 ∧ c'.keys = r.keys) := by
      intro c'
      exact (hiff1 c').trans (hiff2 c')
    have hprio1000 : ∀ c ∈ cache1, c.keys = r.keys →
        priority P hashFn now1 r (some c) = 1000 := by
      intro c hc hck
      have hpair := incomingPairs_mem_some hr hc hck
      rcases @priority_ttl_off_cases P hashFn now1 r (some c) hmax href with h1 | h1
      · exact absurd (written_of_prio_one hpair h1) hrtw
      · exact h1
    have hmatches : cacheMatches cache1 r ≠ [] := by
      intro hnil
      have hpair := incomingPairs_mem_none hr hnil
      exact hrtw (written_of_prio_one hpair priority_none)
    constructor
    · rcases hm : cacheMatches cache1 r with _ | ⟨c, t⟩
      · exact absurd hm hmatches
      · have hcm : c ∈ cacheMatches cache1 r := by rw [hm]; exact List.mem_cons_self _ _
        have hcc : c ∈ cache1 := (List.mem_filter.mp hcm).1
        have hck : c.keys = r.keys := by
          have := (List.mem_filter.mp hcm).2
          simpa using this
        have hact := mem_extract_cache.mp hcc
        have hct : c ∈ tbl1 := ((hkeyrows c).mpr ⟨hact.1, hck⟩).1
        exact ⟨c, mem_extract_cache.mpr ⟨hct, hact.2⟩, hck⟩
    · intro c' hc' hk
      have h1 := mem_extract_cache.mp hc'
      have h2 : c' ∈ cache0 := ((hkeyrows c').mp ⟨h1.1, hk⟩).1
      have hc1 : c' ∈ cache1 := mem_extract_cache.mpr ⟨h2, h1.2⟩
      have h1000 := hprio1000 c' hc1 hk
      obtain ⟨hv, hhv⟩ := Option.ne_none_iff_exists'.mp h1.2.2.1
      have := priority_eq_1000_hash h1000 hhv
      rw [hhv, this]


theorem save_identity_cache (P : Params) (hashFn : List Val → Int) (now1 : Int)
    (cache0 : List CacheRow) (batch : List Row) :
    (save identityOp identityOp P hashFn now1 cache0 batch).cache =
      mergeUpsert
        (mergeUpsert cache0
          ((discard_non_new_rows_against_cache P hashFn now1 (dedupByKeys batch)
            (extract_cache cache0)).to_be_written.map
            (prepare_written_cache_row hashFn now1)))
        ((discard_non_new_rows_against_cache P hashFn now1 (dedupByKeys batch)
          (extract_cache cache0)).to_be_deleted.map
          (prepare_deleted_cache_row now1)) := rfl

theorem save_identity_writtenArg (P : Params) (hashFn : List Val → Int)
    (now : Int) (tbl : List CacheRow) (dfIn : List Row) :
    (save identityOp identityOp P hashFn now tbl dfIn).writtenArg =
      (discard_non_new_rows_against_cache P hashFn now (dedupByKeys dfIn)
        (extract_cache tbl)).to_be_written := rfl

/-- C5: running `save` twice with an identical batch (and the cache only
modified by the first call), with `max_ttl <= 0` and `refresh_ttl <= 0`,
classifies every joined row at priority 1000 on the second run, so the
second run's write operation receives no rows at all. -/
theorem C5_save_idempotent (P : Params) (hashFn : List Val → Int)
    (now1 now2 : Int) (cache0 : List CacheRow) (batch : List Row)
    (hmax : P.max_ttl ≤ 0) (href : P.refresh_ttl ≤ 0) :
    let cache1 := (save identityOp identityOp P hashFn now1 cache0 batch).cache
    (∀ p ∈ classified P hashFn now2 ((dedupByKeys batch).filter nullFreeKeys)
        (extract_cache cache1), p.prio = 1000) ∧
    (save identityOp identityOp P hashFn now2 cache1 batch).writtenArg = [] := by
  intro cache1
  have hpw : ((dedupByKeys batch).filter nullFreeKeys).Pairwise
      (fun a b => ¬ a.keys = b.keys) :=
    (dedupByKeys_pairwise batch).filter _
  have hfresh : cacheFresh hashFn ((dedupByKeys batch).filter nullFreeKeys)
      (extract_cache cache1) :=
    fresh_after_merges P hashFn now1 cache0 (dedupByKeys batch) hmax href hpw
  have hact : ∀ c ∈ extract_cache cache1,
      c.loadedTime ≠ none ∧ c.rowHash ≠ none := by
    intro c hc
    have h := mem_extract_cache.mp hc
    exact ⟨h.2.2.2, h.2.2.1⟩
  have hred := reduce_fresh_ttl_off P hashFn now2 (dedupByKeys batch)
    (extract_cache cache1) hmax href hact hfresh
  refine ⟨hred.1, ?_⟩
  rw [save_identity_writtenArg]
  exact hred.2

/-- Witness for C5 at a concrete input: an empty initial cache and a
two-row batch saved twice. -/
theorem C5_witness :
    (let cache1 := (save identityOp identityOp ⟨0, 0, 0⟩ sumHash 100 []
        [exNew, exOld]).cache
     (∀ p ∈ classified ⟨0, 0, 0⟩ sumHash 200
        ((dedupByKeys [exNew, exOld]).filter nullFreeKeys)
        (extract_cache cache1), p.prio = 1000) ∧
     (save identityOp identityOp ⟨0, 0, 0⟩ sumHash 200 cache1
        [exNew, exOld]).writtenArg = []) :=
  C5_save_idempotent ⟨0, 0, 0⟩ sumHash 100 200 [] [exNew, exOld]
    (by decide) (by decide)

end CachedLoader
